import Mathlib

/-!
Verification of the candle-collection core of the `revenge-calc` repository.

The development shallowly embeds the algorithmic core of
`exchange_service.py` and `data_collection_service.py`:

* timestamps (`datetime` values in UTC) are integers counting seconds since
  the epoch, so `timedelta(minutes=1)` is the constant `60`;
* prices and volumes are integers (the claims only copy and compare them,
  never compute with them);
* the SQLAlchemy session is a pair of row lists (`committed`, `current`):
  `commit` publishes the current rows, `rollback` restores the committed ones;
* the external exchange (ccxt) is an oracle function supplied as a parameter.
-/

namespace RevengeCalc

/-- `timedelta(minutes=1)` measured in seconds. -/
def oneMinute : Int := 60

/-! ## Gap detector: `ExchangeService.get_missing_candles_timerange`
(`src/exchange_service.py`, lines 152-192).

The DB query returns the stored candles for the (pair, exchange, timeframe)
triple with `open_time >= start_date`, ascending by `open_time`; the walk below
only looks at the `open_time` of each candle, so a stored candle is represented
by that single integer.  Timezone normalisation (line 180-181) is the identity
here because every modelled timestamp is already UTC. -/

/-- The `for candle in existing_candles` loop of lines 177-185: threads the
cursor `current_time`, emitting `(current_time, open_time)` whenever a stored
candle starts strictly after the cursor, and advancing the cursor to
`max(current_time, open_time + timedelta(minutes=1))`.  Returns the emitted
gaps together with the final cursor. -/
def gapWalk : List Int → Int → List (Int × Int) × Int
  | [], current_time => ([], current_time)
  | t :: rest, current_time =>
      let new_gaps : List (Int × Int) := if t > current_time then [(current_time, t)] else []
      let res := gapWalk rest (max current_time (t + oneMinute))
      (new_gaps ++ res.1, res.2)

/-- `ExchangeService.get_missing_candles_timerange`: with no stored candles the
whole period `[start_date, now)` is returned (lines 170-172); otherwise the
gaps from the walk, plus a trailing `(current_time, now)` when the final cursor
is still behind `now` (lines 187-190). -/
def get_missing_candles_timerange (start_date now : Int) (existing_candles : List Int) :
    List (Int × Int) :=
  if existing_candles.isEmpty then [(start_date, now)]
  else
    let res := gapWalk existing_candles start_date
    res.1 ++ (if res.2 < now then [(res.2, now)] else [])

/-- The set of instants inside a half-open gap interval. -/
def gapSet (p : Int × Int) : Set Int := Set.Ico p.1 p.2

/-- Union of the instants of a list of gap intervals. -/
def gapsSet : List (Int × Int) → Set Int
  | [] => ∅
  | p :: ps => gapSet p ∪ gapsSet ps

/-- Union of the one-minute spans `[open_time, open_time + 1min)` covered by a
list of stored candles. -/
def coveredSet : List Int → Set Int
  | [] => ∅
  | t :: ts => Set.Ico t (t + oneMinute) ∪ coveredSet ts

/-- Lower bound of the region reached by the gap walk: the start cursor,
lowered to the first candle when one exists. -/
def lowerB : List Int → Int → Int
  | [], c => c
  | t :: _, c => min c t

/-! ## Timeframe codec: `DataCollectionService.convert_minutes_to_timeframe`
(`src/data_collection_service.py`, lines 209-227).  The Python dict literal
becomes an association list; `timeframe_map.get(minutes)` is `List.lookup`. -/

/-- The `timeframe_map` dict of lines 211-226. -/
def timeframe_map : List (Int × String) :=
  [(1, "1m"), (3, "3m"), (5, "5m"), (15, "15m"), (30, "30m"), (60, "1h"), (120, "2h"),
   (240, "4h"), (360, "6h"), (480, "8h"), (720, "12h"), (1440, "1d"), (10080, "1w"),
   (43200, "1M")]

/-- `DataCollectionService.convert_minutes_to_timeframe`. -/
def convert_minutes_to_timeframe (minutes : Int) : Option String :=
  timeframe_map.lookup minutes

/-! ## Data model (`src/models.py`, class `Candle`) and the fetched-candle dict.

A `Candle` row carries the natural key `(currency_pair_id, exchange_id,
time_period_id, open_time)` plus the OHLCV payload.  The autoincrement `id`
and the server-defaulted `created_at` play no role in any claim and are
omitted; `updated_at` is `none` while the row still has its server default and
`some t` once the service stamped it. -/

/-- One stored row of the `candles` table. -/
structure Candle where
  currency_pair_id : Int
  exchange_id : Int
  time_period_id : Int
  open_time : Int
  close_time : Int
  open_price : Int
  high_price : Int
  low_price : Int
  close_price : Int
  volume : Int
  quote_volume : Int
  trades_count : Int
  updated_at : Option Int
  deriving DecidableEq, Repr

/-- The candle dict built by `ExchangeService.fetch_current_candle` /
`fetch_historical_candles`: keys `timestamp`, `open`, `high`, `low`, `close`,
`volume`, with `quote_volume` and `trades_count` optional (`none` models an
absent key; the services read them with `candle_data.get(key, 0)`).  `open` is
a Lean keyword, hence the trailing underscore. -/
structure CandleData where
  timestamp : Int
  open_ : Int
  high : Int
  low : Int
  close : Int
  volume : Int
  quote_volume : Option Int
  trades_count : Option Int
  deriving DecidableEq, Repr

/-- The SQLAlchemy session (`SessionLocal()`): `committed` is what the
database durably holds, `current` additionally reflects the session's
not-yet-committed inserts and attribute writes. -/
structure Session where
  committed : List Candle
  current : List Candle
  deriving DecidableEq, Repr

/-- `db.commit()`: publish the session's pending state. -/
def Session.commit (s : Session) : Session := ⟨s.current, s.current⟩

/-- `db.rollback()`: discard the pending state, back to the last commit. -/
def Session.rollback (s : Session) : Session := ⟨s.committed, s.committed⟩

/-- The natural-key filter of the `db.query(models.Candle).filter(...)` calls:
same currency pair, exchange, time period and open time. -/
def candleMatches (currency_pair_id exchange_id time_period_id open_time : Int)
    (c : Candle) : Bool :=
  c.currency_pair_id == currency_pair_id && c.exchange_id == exchange_id &&
    c.time_period_id == time_period_id && c.open_time == open_time

/-- Mutating the first row an ORM `.first()` query returned: rows before the
first match are untouched, the first match is replaced by `f` of it. -/
def updateFirst (p : Candle → Bool) (f : Candle → Candle) : List Candle → List Candle
  | [] => []
  | c :: cs => if p c then f c :: cs else c :: updateFirst p f cs

/-! ## Live upsert: `DataCollectionService._save_or_update_candle`
(`src/data_collection_service.py`, lines 163-207).

The symbol string has already been resolved to `currency_pair_id` (the
`_get_currency_pair_id` DB lookups of lines 20-51 are represented by passing
the resolved identifier).  `now` is the `datetime.now(timezone.utc)` read at
line 201.  Note both branches end in `db.commit()` (lines 191 and 202). -/

/-- The `models.Candle(...)` row built by the insert branches of
`_save_or_update_candle` (lines 176-189) and `_save_historical_candles`
(lines 335-348) — the two literals assign the same fields the same way:
`close_time = open_time = candle_data['timestamp']`, OHLCV copied, and
`candle_data.get('quote_volume', 0)` / `candle_data.get('trades_count', 0)`
defaulting the optional keys to 0. -/
def new_candle_row (currency_pair_id exchange_id time_period_id : Int)
    (candle_data : CandleData) : Candle :=
  { currency_pair_id := currency_pair_id
    exchange_id := exchange_id
    time_period_id := time_period_id
    open_time := candle_data.timestamp
    close_time := candle_data.timestamp
    open_price := candle_data.open_
    high_price := candle_data.high
    low_price := candle_data.low
    close_price := candle_data.close
    volume := candle_data.volume
    quote_volume := candle_data.quote_volume.getD 0
    trades_count := candle_data.trades_count.getD 0
    updated_at := none }

/-- The attribute writes of the update branch of `_save_or_update_candle`
(lines 194-201): overwrite OHLCV, `quote_volume`, `trades_count` and stamp
`updated_at = datetime.now(timezone.utc)`. -/
def updated_candle_row (now : Int) (candle_data : CandleData)
    (existing_candle : Candle) : Candle :=
  { existing_candle with
    open_price := candle_data.open_
    high_price := candle_data.high
    low_price := candle_data.low
    close_price := candle_data.close
    volume := candle_data.volume
    quote_volume := candle_data.quote_volume.getD 0
    trades_count := candle_data.trades_count.getD 0
    updated_at := some now }

/-- `DataCollectionService._save_or_update_candle`. -/
def save_or_update_candle (now currency_pair_id exchange_id time_period_id : Int)
    (candle_data : CandleData) (db : Session) : Session :=
  match db.current.find?
      (candleMatches currency_pair_id exchange_id time_period_id candle_data.timestamp) with
  | none =>
      Session.commit { db with current :=
        db.current ++ [new_candle_row currency_pair_id exchange_id time_period_id candle_data] }
  | some _ =>
      let updated := updateFirst
        (candleMatches currency_pair_id exchange_id time_period_id candle_data.timestamp)
        (updated_candle_row now candle_data)
        db.current
      Session.commit { db with current := updated }

/-! ## Historical save: `DataCollectionService._save_historical_candles`
(lines 321-359).  For each candle of the page: look up the natural key and
insert-and-commit only when no row exists — there is no update branch.  The
per-candle `try/except` (rollback, log, continue) only fires on database
errors, which the pure model does not produce. -/

/-- `DataCollectionService._save_historical_candles`. -/
def save_historical_candles (currency_pair_id exchange_id time_period_id : Int)
    (candles_data : List CandleData) (db : Session) : Session :=
  candles_data.foldl
    (fun s candle_data =>
      match s.current.find?
          (candleMatches currency_pair_id exchange_id time_period_id candle_data.timestamp) with
      | some _ => s
      | none =>
          Session.commit { s with current :=
            s.current ++
              [new_candle_row currency_pair_id exchange_id time_period_id candle_data] })
    db

/-! ## Live fetch: `ExchangeService.fetch_current_candle`
(`src/exchange_service.py`, lines 101-123).  The ccxt reply is a list of
6-entry OHLCV rows; the code takes the last one and builds the candle dict
with exactly six keys.  The epoch-milliseconds value `candle[0]` is decoded by
`datetime.fromtimestamp(candle[0] / 1000, tz=timezone.utc)`, i.e. divided by
1000 into the seconds timeline used throughout this model (sub-second parts
are immaterial to every claim).  A fetch error returns `None`; the pure oracle
reply cannot raise, so only the empty-reply path yields `none` here. -/

/-- One raw OHLCV entry `[ts, open, high, low, close, volume]` from ccxt. -/
structure RawOHLCV where
  ts : Int
  o : Int
  h : Int
  l : Int
  c : Int
  v : Int
  deriving DecidableEq, Repr

/-- `ExchangeService.fetch_current_candle` applied to the raw ccxt reply. -/
def fetch_current_candle (ohlcv : List RawOHLCV) : Option CandleData :=
  match ohlcv.getLast? with
  | none => none
  | some candle =>
      some { timestamp := candle.ts / 1000
             open_ := candle.o
             high := candle.h
             low := candle.l
             close := candle.c
             volume := candle.v
             quote_volume := none
             trades_count := none }

/-! ## Live update driver: `DataCollectionService.collect_current_candles`
(lines 90-110) with its helpers `_process_exchange_candles` (120-137),
`_process_symbol_candles` (139-147) and `_process_timeframe_candle` (149-161).

One invocation is modelled by the trace of session-relevant events its triple
loop produces, in order:

* `save cp ex tp now d` — a leaf `(exchange, pair, timeframe)` whose fetch
  returned candle `d`; `_process_timeframe_candle` calls
  `_save_or_update_candle` (line 158).  Leaves whose fetch returned `None`,
  whose timeframe is unsupported, or whose symbol/timeframe processing raised
  and was caught at lines 132-135 / 144-147 / 160-161 touch the session not at
  all and therefore contribute no event.
* `initFail` — an exchange whose `get_exchange_instance` raised: the
  exception is caught at lines 124-126, `_process_exchange_candles` returns
  `False`, and the outer loop simply moves on, so the event is a no-op.
* `topError` — an exception escaping to the `except` of
  `collect_current_candles` itself (line 106), e.g. from
  `_get_active_entities` or from the un-guarded code of the per-exchange loop:
  the handler calls `db.rollback()` (line 108) and the run ends.

A trace with no `topError` runs to the `db.commit()` of line 103. -/

/-- One session-relevant event of a live-update invocation. -/
inductive LiveEvent where
  | save (currency_pair_id exchange_id time_period_id now : Int) (data : CandleData)
  | initFail
  | topError
  deriving DecidableEq, Repr

/-- `DataCollectionService.collect_current_candles`, run over its event
trace. -/
def collect_current_candles : List LiveEvent → Session → Session
  | [], db => db.commit
  | LiveEvent.save cp ex tp now d :: rest, db =>
      collect_current_candles rest (save_or_update_candle now cp ex tp d db)
  | LiveEvent.initFail :: rest, db => collect_current_candles rest db
  | LiveEvent.topError :: _, db => db.rollback

/-- Shorthand turning a list of leaf writes into their `save` events. -/
def saveEvents (writes : List (Int × Int × Int × Int × CandleData)) : List LiveEvent :=
  writes.map (fun w => LiveEvent.save w.1 w.2.1 w.2.2.1 w.2.2.2.1 w.2.2.2.2)

/-- Folding the leaf writes directly through `_save_or_update_candle`. -/
def applySaves (writes : List (Int × Int × Int × Int × CandleData)) (db : Session) : Session :=
  writes.foldl (fun s w => save_or_update_candle w.2.2.2.1 w.1 w.2.1 w.2.2.1 w.2.2.2.2 s) db

/-! ## Backfill loop: `DataCollectionService._collect_candles_for_range`
(lines 299-319).

`fetch` is the oracle behind `exchange_service.fetch_historical_candles`:
given the `since` cursor it returns the page (the `limit=1000` cap and the
symbol/timeframe arguments are folded into the oracle).  The `while
current_time < end_time` loop is given an explicit iteration budget `fuel`;
`none` means the budget ran out before the loop finished, so termination
within `k` iterations is exactly `isSome` of the run with `fuel = k`. -/

/-- The cursor update of lines 313-319: `last` is
`historical_candles[-1]['timestamp']`. -/
def backfill_next_cursor (minutes current_time last : Int) : Int :=
  if last ≤ current_time then current_time + minutes * 100 else last + minutes

/-- `DataCollectionService._collect_candles_for_range`: returns the final
cursor and session when the loop exits within `fuel` iterations. -/
def collect_candles_for_range (fetch : Int → List CandleData)
    (currency_pair_id exchange_id time_period_id minutes end_time : Int) :
    Nat → Int → Session → Option (Int × Session)
  | 0, current_time, db =>
      if current_time < end_time then none else some (current_time, db)
  | fuel + 1, current_time, db =>
      if current_time < end_time then
        match fetch current_time with
        | [] => some (current_time, db)
        | d :: ds =>
            let db' := save_historical_candles currency_pair_id exchange_id time_period_id
              (d :: ds) db
            let last := (List.getLast (d :: ds) (List.cons_ne_nil d ds)).timestamp
            collect_candles_for_range fetch currency_pair_id exchange_id time_period_id
              minutes end_time fuel (backfill_next_cursor minutes current_time last) db'
      else some (current_time, db)

/-! ## Spec-side gap walk, for the refinement claim C4.

Modelled from the spec, section 4.2: "walk the sorted candles maintaining a
cursor initialized to floor_date: for each candle, if its open_time exceeds
the cursor, emit the interval [cursor, candle.open_time) as a gap; then
advance the cursor to max(cursor, candle.open_time + 1 minute).  After
exhausting stored candles, if the cursor is still behind now, emit a final
trailing interval [cursor, now)" — with the empty case "If none exist, return
a single interval [floor_date, now)".  Written as a left fold to be compared
against the recursive `gapWalk` of the source. -/

/-- Gap computation as the spec's section 4.2 words it. -/
def spec_missing_ranges (floor_date now : Int) (candles : List Int) : List (Int × Int) :=
  if candles = [] then [(floor_date, now)]
  else
    let r := candles.foldl
      (fun (acc : List (Int × Int) × Int) t =>
        (acc.1 ++ (if acc.2 < t then [(acc.2, t)] else []), max acc.2 (t + oneMinute)))
      ([], floor_date)
    r.1 ++ (if r.2 < now then [(r.2, now)] else [])

/-! ## Helper lemmas about intervals and the gap walk -/

/-- Glueing two overlapping-or-adjacent `Ico` intervals. -/
theorem Ico_glue (a b m d : Int) (h1 : a ≤ m) (h2 : m ≤ b) (h3 : b ≤ d) :
    Set.Ico a b ∪ Set.Ico m d = Set.Ico a d := by
  ext x
  simp only [Set.mem_union, Set.mem_Ico]
  omega

/-- Two `Ico` intervals with separated endpoints share no instant. -/
theorem Ico_inter_empty (a b c d : Int) (h : b ≤ c ∨ d ≤ a) :
    Set.Ico a b ∩ Set.Ico c d = (∅ : Set Int) := by
  ext x
  simp only [Set.mem_inter_iff, Set.mem_Ico, Set.mem_empty_iff_false, iff_false, not_and]
  omega

/-- `gapsSet` distributes over list append. -/
theorem gapsSet_append (l₁ l₂ : List (Int × Int)) :
    gapsSet (l₁ ++ l₂) = gapsSet l₁ ∪ gapsSet l₂ := by
  induction l₁ with
  | nil => simp [gapsSet]
  | cons p ps ih => simp [gapsSet, ih, Set.union_assoc]

/-- A gap separated from every candle's minute span avoids the covered set. -/
theorem gap_inter_covered_empty (a b : Int) (l : List Int)
    (h : ∀ t ∈ l, b ≤ t ∨ t + oneMinute ≤ a) :
    Set.Ico a b ∩ coveredSet l = ∅ := by
  induction l with
  | nil => simp [coveredSet]
  | cons t ts ih =>
    have ht := h t (List.mem_cons_self t ts)
    have hts : ∀ x ∈ ts, b ≤ x ∨ x + oneMinute ≤ a := fun x hx => h x (List.mem_cons_of_mem t hx)
    simp only [coveredSet, Set.inter_union_distrib_left, ih hts, Set.union_empty]
    exact Ico_inter_empty a b t (t + oneMinute) ht

/-- The walk never moves its cursor backwards. -/
theorem gapWalk_cursor_le (candles : List Int) : ∀ c : Int, c ≤ (gapWalk candles c).2 := by
  induction candles with
  | nil => intro c; simp [gapWalk]
  | cons t rest ih =>
    intro c
    have := ih (max c (t + oneMinute))
    simp only [gapWalk]
    omega

/-- The final cursor passes the minute span of every stored candle. -/
theorem gapWalk_cursor_covers (candles : List Int) :
    ∀ c : Int, ∀ t ∈ candles, t + oneMinute ≤ (gapWalk candles c).2 := by
  induction candles with
  | nil => intro c t ht; exact absurd ht (List.not_mem_nil t)
  | cons t₀ rest ih =>
    intro c t ht
    rcases List.mem_cons.mp ht with h | h
    · subst h
      have := gapWalk_cursor_le rest (max c (t + oneMinute))
      simp only [gapWalk]
      omega
    · have := ih (max c (t₀ + oneMinute)) t h
      simp only [gapWalk]
      omega

/-- When every candle's span ends by `now` and the start cursor is at most
`now`, the final cursor is at most `now`. -/
theorem gapWalk_cursor_le_now (candles : List Int) :
    ∀ c now : Int, c ≤ now → (∀ t ∈ candles, t + oneMinute ≤ now) →
      (gapWalk candles c).2 ≤ now := by
  induction candles with
  | nil => intro c now hc _; simpa [gapWalk] using hc
  | cons t rest ih =>
    intro c now hc h
    have ht := h t (List.mem_cons_self t rest)
    have hrest : ∀ x ∈ rest, x + oneMinute ≤ now := fun x hx => h x (List.mem_cons_of_mem t hx)
    have := ih (max c (t + oneMinute)) now (by omega) hrest
    simp only [gapWalk]
    omega

/-- Every emitted gap sits between the start cursor and the final cursor and
is nonempty. -/
theorem gapWalk_gap_bounds (candles : List Int) :
    ∀ c : Int, ∀ p ∈ (gapWalk candles c).1,
      c ≤ p.1 ∧ p.1 < p.2 ∧ p.2 ≤ (gapWalk candles c).2 := by
  induction candles with
  | nil => intro c p hp; simp [gapWalk] at hp
  | cons t rest ih =>
    intro c p hp
    have hcur := gapWalk_cursor_le rest (max c (t + oneMinute))
    simp only [gapWalk, List.mem_append] at hp
    rcases hp with hp | hp
    · rcases lt_or_ge c t with hct | hct
      · simp only [hct, if_pos, List.mem_singleton] at hp
        subst hp
        simp only [gapWalk]
        have h1m : oneMinute = 60 := rfl
        omega
      · simp [show ¬ (t > c) from not_lt.mpr hct] at hp
    · have := ih (max c (t + oneMinute)) p hp
      simp only [gapWalk]
      omega

/-- The emitted gaps come in strictly increasing, non-overlapping order. -/
theorem gapWalk_gaps_ordered (candles : List Int) :
    ∀ c : Int, List.Pairwise (fun p q : Int × Int => p.2 ≤ q.1) (gapWalk candles c).1 := by
  induction candles with
  | nil => intro c; simp [gapWalk]
  | cons t rest ih =>
    intro c
    simp only [gapWalk]
    refine List.pairwise_append.mpr ⟨?_, ih _, ?_⟩
    · rcases lt_or_ge c t with hct | hct
      · simp [hct]
      · simp [show ¬ (t > c) from not_lt.mpr hct]
    · intro p hp q hq
      rcases lt_or_ge c t with hct | hct
      · simp only [hct, if_pos, List.mem_singleton] at hp
        subst hp
        have := (gapWalk_gap_bounds rest (max c (t + oneMinute)) q hq).1
        have h1m : oneMinute = 60 := rfl
        simp only
        omega
      · simp [show ¬ (t > c) from not_lt.mpr hct] at hp

/-- Every emitted gap is separated from the minute span of every candle. -/
theorem gapWalk_gaps_avoid (candles : List Int) :
    ∀ c : Int, List.Pairwise (· ≤ ·) candles →
      ∀ p ∈ (gapWalk candles c).1, ∀ t ∈ candles, p.2 ≤ t ∨ t + oneMinute ≤ p.1 := by
  induction candles with
  | nil => intro c _ p hp; simp [gapWalk] at hp
  | cons t₀ rest ih =>
    intro c hs p hp t ht
    have hhead : ∀ x ∈ rest, t₀ ≤ x := fun x hx => (List.pairwise_cons.mp hs).1 x hx
    have htail : List.Pairwise (· ≤ ·) rest := (List.pairwise_cons.mp hs).2
    simp only [gapWalk, List.mem_append] at hp
    rcases hp with hp | hp
    · rcases lt_or_ge c t₀ with hct | hct
      · simp only [hct, if_pos, List.mem_singleton] at hp
        subst hp
        rcases List.mem_cons.mp ht with h | h
        · subst h; left; simp
        · left; simpa using hhead t h
      · simp [show ¬ (t₀ > c) from not_lt.mpr hct] at hp
    · rcases List.mem_cons.mp ht with h | h
      · subst h
        have := (gapWalk_gap_bounds rest (max c (t + oneMinute)) p hp).1
        right
        omega
      · exact ih (max c (t₀ + oneMinute)) htail p hp t h

/-- Instants of the emitted gaps together with the candle-covered instants
form exactly the interval from `lowerB` up to the final cursor, provided the
candles are ascending and none of their spans ends before the start cursor. -/
theorem gapWalk_union (candles : List Int) :
    ∀ c : Int, List.Pairwise (· ≤ ·) candles → (∀ t ∈ candles, c ≤ t + oneMinute) →
      gapsSet (gapWalk candles c).1 ∪ coveredSet candles =
        Set.Ico (lowerB candles c) (gapWalk candles c).2 := by
  induction candles with
  | nil => intro c _ _; simp [gapWalk, gapsSet, coveredSet, lowerB]
  | cons t rest ih =>
    intro c hs hinv
    have hhead : ∀ x ∈ rest, t ≤ x := fun x hx => (List.pairwise_cons.mp hs).1 x hx
    have htail : List.Pairwise (· ≤ ·) rest := (List.pairwise_cons.mp hs).2
    have hct : c ≤ t + oneMinute := hinv t (List.mem_cons_self t rest)
    have hmax : max c (t + oneMinute) = t + oneMinute := max_eq_right hct
    have hinv' : ∀ x ∈ rest, t + oneMinute ≤ x + oneMinute := by
      intro x hx
      have := hhead x hx
      omega
    have ihr := ih (t + oneMinute) htail hinv'
    have hcursor := gapWalk_cursor_le rest (t + oneMinute)
    have h1m : oneMinute = 60 := rfl
    have hfirst : gapsSet (if t > c then [(c, t)] else []) ∪ Set.Ico t (t + oneMinute) =
        Set.Ico (min c t) (t + oneMinute) := by
      rcases lt_or_ge c t with h | h
      · rw [if_pos h]
        simp only [gapsSet, gapSet, Set.union_empty]
        rw [Ico_glue c t t (t + oneMinute) (le_of_lt h) le_rfl (by omega),
          min_eq_left (le_of_lt h)]
      · rw [if_neg (not_lt.mpr h)]
        simp only [gapsSet, Set.empty_union]
        rw [min_eq_right h]
    have hlb : lowerB rest (t + oneMinute) ≤ t + oneMinute := by
      cases rest with
      | nil => simp [lowerB]
      | cons r rs => simp [lowerB]
    have hlb' : min c t ≤ lowerB rest (t + oneMinute) := by
      cases rest with
      | nil => simp [lowerB]; omega
      | cons r rs =>
        have := hhead r (List.mem_cons_self r rs)
        simp only [lowerB]
        omega
    calc gapsSet (gapWalk (t :: rest) c).1 ∪ coveredSet (t :: rest)
        = (gapsSet (if t > c then [(c, t)] else []) ∪
            gapsSet (gapWalk rest (t + oneMinute)).1) ∪
            (Set.Ico t (t + oneMinute) ∪ coveredSet rest) := by
          simp only [gapWalk, hmax, coveredSet, gapsSet_append]
      _ = (gapsSet (if t > c then [(c, t)] else []) ∪ Set.Ico t (t + oneMinute)) ∪
            (gapsSet (gapWalk rest (t + oneMinute)).1 ∪ coveredSet rest) :=
          Set.union_union_union_comm _ _ _ _
      _ = Set.Ico (min c t) (t + oneMinute) ∪
            Set.Ico (lowerB rest (t + oneMinute)) (gapWalk rest (t + oneMinute)).2 := by
          rw [hfirst, ihr]
      _ = Set.Ico (min c t) (gapWalk rest (t + oneMinute)).2 :=
          Ico_glue _ _ _ _ hlb' hlb hcursor
      _ = Set.Ico (lowerB (t :: rest) c) (gapWalk (t :: rest) c).2 := by
          simp only [lowerB, gapWalk, hmax]

/-- Folding the spec's walk step is the same as running `gapWalk`, up to the
accumulated gap prefix. -/
theorem gapWalk_foldl (candles : List Int) :
    ∀ (acc : List (Int × Int)) (c : Int),
      candles.foldl
        (fun (a : List (Int × Int) × Int) t =>
          (a.1 ++ (if a.2 < t then [(a.2, t)] else []), max a.2 (t + oneMinute)))
        (acc, c)
      = (acc ++ (gapWalk candles c).1, (gapWalk candles c).2) := by
  induction candles with
  | nil => intro acc c; simp [gapWalk]
  | cons t rest ih =>
    intro acc c
    simp only [List.foldl_cons, gapWalk, ih, List.append_assoc]

/-- C4: gap detector algorithm steps.  The source walk
(`get_missing_candles_timerange`) coincides with the cursor walk as the spec
words it (`spec_missing_ranges`), and on the spec's scenario — floor
2020-01-01T00:00Z (epoch 1577836800), one stored candle at 00:05Z, "now"
00:10Z — it returns exactly the gaps (00:00, 00:05) and (00:06, 00:10). -/
theorem gap_detector_steps :
    (∀ start_date now candles,
      get_missing_candles_timerange start_date now candles =
        spec_missing_ranges start_date now candles) ∧
    get_missing_candles_timerange 1577836800 1577837400 [1577837100] =
      [(1577836800, 1577837100), (1577837160, 1577837400)] := by
  constructor
  · intro start_date now candles
    cases candles with
    | nil => simp [get_missing_candles_timerange, spec_missing_ranges]
    | cons t ts =>
      simp only [get_missing_candles_timerange, spec_missing_ranges, List.isEmpty_cons,
        Bool.false_eq_true, if_false, reduceCtorEq, gapWalk_foldl (t :: ts) [] start_date,
        List.nil_append]
  · decide

/-- C8: no-data gap.  For a floor date earlier than the current time, the gap
detector on an empty candle set returns exactly the one interval
`[floor_date, now)`. -/
theorem no_data_gap (start_date now : Int) (_h : start_date < now) :
    get_missing_candles_timerange start_date now [] = [(start_date, now)] := by
  simp [get_missing_candles_timerange]

/-- Witness for `no_data_gap` at floor 0, now 60. -/
theorem no_data_gap_witness :
    (0 : Int) < 60 ∧ get_missing_candles_timerange 0 60 [] = [(0, 60)] :=
  ⟨by decide, no_data_gap 0 60 (by decide)⟩

/-- C7: timeframe codec totality.  `convert_minutes_to_timeframe` yields a
token exactly on the fourteen documented minute values, maps 1, 1440, 10080
and 43200 to "1m", "1d", "1w" and "1M", and yields none elsewhere, e.g. at
7. -/
theorem timeframe_codec_totality :
    (∀ m : Int, (convert_minutes_to_timeframe m).isSome ↔
      m ∈ ([1, 3, 5, 15, 30, 60, 120, 240, 360, 480, 720, 1440, 10080, 43200] : List Int)) ∧
    convert_minutes_to_timeframe 1 = some "1m" ∧
    convert_minutes_to_timeframe 1440 = some "1d" ∧
    convert_minutes_to_timeframe 10080 = some "1w" ∧
    convert_minutes_to_timeframe 43200 = some "1M" ∧
    convert_minutes_to_timeframe 7 = none := by
  refine ⟨?_, rfl, rfl, rfl, rfl, rfl⟩
  intro m
  simp only [convert_minutes_to_timeframe, timeframe_map, List.lookup, beq_iff_eq,
    List.mem_cons, List.not_mem_nil, or_false]
  repeat' split
  all_goals simp_all

/-- C1 counterexample: with floor 0, now 90 and one stored candle opening at
instant 60 (inside `[0, 90)`), the candle's one-minute span runs to 120, so
the union of the detector's gaps with the covered spans is `[0, 120)`, not
`[0, 90)` — the claimed exact equality fails. -/
theorem gap_cover_exact_counterexample :
    ¬ (gapsSet (get_missing_candles_timerange 0 90 [60]) ∪ coveredSet [60] =
        Set.Ico (0 : Int) 90) := by
  intro h
  have h100 : (100 : Int) ∈
      gapsSet (get_missing_candles_timerange 0 90 [60]) ∪ coveredSet [60] := by
    refine Set.mem_union_right _ ?_
    simp only [coveredSet, oneMinute, Set.union_empty, Set.mem_Ico]
    omega
  rw [h] at h100
  rw [Set.mem_Ico] at h100
  omega

/-- C1 (amended): gap cover completeness.  For every floor date, every `now`,
and every ascending list of stored candles whose open times lie in
`[floor, now)` and whose one-minute covered spans also end by `now`
(`open_time + 1min ≤ now` — the extra condition the counterexample forces),
the detector's intervals are ordered, pairwise disjoint, disjoint from the
covered spans, and their union with the covered spans is exactly
`[floor, now)`. -/
theorem gap_cover_completeness (start_date now : Int) (candles : List Int)
    (hsorted : List.Pairwise (· ≤ ·) candles)
    (hlo : ∀ t ∈ candles, start_date ≤ t)
    (hhi : ∀ t ∈ candles, t + oneMinute ≤ now) :
    List.Pairwise (fun p q : Int × Int => p.2 ≤ q.1)
      (get_missing_candles_timerange start_date now candles) ∧
    List.Pairwise (fun p q : Int × Int => gapSet p ∩ gapSet q = ∅)
      (get_missing_candles_timerange start_date now candles) ∧
    (∀ p ∈ get_missing_candles_timerange start_date now candles,
      gapSet p ∩ coveredSet candles = ∅) ∧
    gapsSet (get_missing_candles_timerange start_date now candles) ∪ coveredSet candles =
      Set.Ico start_date now := by
  have h1m : oneMinute = 60 := rfl
  cases candles with
  | nil =>
    refine ⟨?_, ?_, ?_, ?_⟩
    · simp [get_missing_candles_timerange]
    · simp [get_missing_candles_timerange]
    · intro p _
      simp [coveredSet]
    · simp [get_missing_candles_timerange, gapsSet, gapSet, coveredSet]
  | cons t ts =>
    have hmem : t ∈ t :: ts := List.mem_cons_self t ts
    have hsn : start_date < now := by
      have h1 := hlo t hmem
      have h2 := hhi t hmem
      omega
    have hget : get_missing_candles_timerange start_date now (t :: ts) =
        (gapWalk (t :: ts) start_date).1 ++
          (if (gapWalk (t :: ts) start_date).2 < now
            then [((gapWalk (t :: ts) start_date).2, now)] else []) := by
      simp [get_missing_candles_timerange]
    have hWle : start_date ≤ (gapWalk (t :: ts) start_date).2 :=
      gapWalk_cursor_le (t :: ts) start_date
    have hWub : (gapWalk (t :: ts) start_date).2 ≤ now :=
      gapWalk_cursor_le_now (t :: ts) start_date now (le_of_lt hsn) hhi
    have hb := gapWalk_gap_bounds (t :: ts) start_date
    have hord := gapWalk_gaps_ordered (t :: ts) start_date
    have havoid := gapWalk_gaps_avoid (t :: ts) start_date hsorted
    have hcov := gapWalk_cursor_covers (t :: ts) start_date
    have hinv : ∀ x ∈ t :: ts, start_date ≤ x + oneMinute := by
      intro x hx
      have := hlo x hx
      omega
    have hunion := gapWalk_union (t :: ts) start_date hsorted hinv
    have hlbeq : lowerB (t :: ts) start_date = start_date := by
      simp only [lowerB]
      exact min_eq_left (hlo t hmem)
    rw [hlbeq] at hunion
    have hordered : List.Pairwise (fun p q : Int × Int => p.2 ≤ q.1)
        (get_missing_candles_timerange start_date now (t :: ts)) := by
      rw [hget]
      refine List.pairwise_append.mpr ⟨hord, ?_, ?_⟩
      · split <;> simp
      · intro p hp q hq
        have hpb := (hb p hp).2.2
        rcases htr : decide ((gapWalk (t :: ts) start_date).2 < now) with _ | _
        · rw [if_neg (of_decide_eq_false htr)] at hq
          exact absurd hq (List.not_mem_nil q)
        · rw [if_pos (of_decide_eq_true htr), List.mem_singleton] at hq
          subst hq
          exact hpb
    refine ⟨hordered, ?_, ?_, ?_⟩
    · exact hordered.imp (fun h => Ico_inter_empty _ _ _ _ (Or.inl h))
    · rw [hget]
      intro p hp
      rcases List.mem_append.mp hp with hp | hp
      · exact gap_inter_covered_empty p.1 p.2 (t :: ts) (havoid p hp)
      · rcases htr : decide ((gapWalk (t :: ts) start_date).2 < now) with _ | _
        · rw [if_neg (of_decide_eq_false htr)] at hp
          exact absurd hp (List.not_mem_nil p)
        · rw [if_pos (of_decide_eq_true htr), List.mem_singleton] at hp
          subst hp
          refine gap_inter_covered_empty _ _ (t :: ts) ?_
          intro x hx
          exact Or.inr (hcov x hx)
    · rw [hget, gapsSet_append, Set.union_right_comm, hunion]
      rcases htr : decide ((gapWalk (t :: ts) start_date).2 < now) with _ | _
      · rw [if_neg (of_decide_eq_false htr)]
        have : (gapWalk (t :: ts) start_date).2 = now := by
          have := of_decide_eq_false htr
          omega
        simp [gapsSet, this]
      · rw [if_pos (of_decide_eq_true htr)]
        simp only [gapsSet, gapSet, Set.union_empty]
        exact Ico_glue start_date _ _ now hWle le_rfl hWub

/-- Witness for `gap_cover_completeness`: floor 0, now 180, one candle at 60. -/
theorem gap_cover_completeness_witness :
    List.Pairwise (fun p q : Int × Int => p.2 ≤ q.1)
      (get_missing_candles_timerange 0 180 [60]) ∧
    List.Pairwise (fun p q : Int × Int => gapSet p ∩ gapSet q = ∅)
      (get_missing_candles_timerange 0 180 [60]) ∧
    (∀ p ∈ get_missing_candles_timerange 0 180 [60],
      gapSet p ∩ coveredSet [60] = ∅) ∧
    gapsSet (get_missing_candles_timerange 0 180 [60]) ∪ coveredSet [60] =
      Set.Ico (0 : Int) 180 :=
  gap_cover_completeness 0 180 [60] (by decide) (by decide) (by decide)

/-! ## Helper lemmas about the upsert primitives -/

/-- A freshly inserted row matches the natural key it was built from. -/
theorem candleMatches_new_row (currency_pair_id exchange_id time_period_id : Int)
    (d : CandleData) :
    candleMatches currency_pair_id exchange_id time_period_id d.timestamp
      (new_candle_row currency_pair_id exchange_id time_period_id d) = true := by
  simp [candleMatches, new_candle_row]

/-- The update branch never touches the natural-key fields. -/
theorem candleMatches_updated_row (currency_pair_id exchange_id time_period_id open_time
    now : Int) (d : CandleData) (c : Candle)
    (h : candleMatches currency_pair_id exchange_id time_period_id open_time c = true) :
    candleMatches currency_pair_id exchange_id time_period_id open_time
      (updated_candle_row now d c) = true := by
  simpa [candleMatches, updated_candle_row] using h

/-- `updateFirst` skips a prefix containing no match. -/
theorem updateFirst_append_of_none (p : Candle → Bool) (f : Candle → Candle)
    (l₁ l₂ : List Candle) (h : ∀ c ∈ l₁, p c = false) :
    updateFirst p f (l₁ ++ l₂) = l₁ ++ updateFirst p f l₂ := by
  induction l₁ with
  | nil => simp
  | cons c cs ih =>
    have hc : p c = false := h c (List.mem_cons_self c cs)
    simp only [List.cons_append, updateFirst, hc, Bool.false_eq_true, if_false, reduceCtorEq,
      List.cons.injEq, true_and]
    exact ih (fun x hx => h x (List.mem_cons_of_mem c hx))

/-- Searching after `updateFirst` finds the image of the row that was found
before, as long as `f` keeps it matching. -/
theorem find?_updateFirst (p : Candle → Bool) (f : Candle → Candle) (l : List Candle)
    (c : Candle) (hc : l.find? p = some c) (hf : p (f c) = true) :
    (updateFirst p f l).find? p = some (f c) := by
  induction l with
  | nil => simp at hc
  | cons x xs ih =>
    by_cases hx : p x = true
    · rw [List.find?_cons_of_pos _ hx] at hc
      obtain rfl : x = c := Option.some.inj hc
      simp only [updateFirst, hx, if_true]
      exact List.find?_cons_of_pos _ hf
    · have hx' : p x = false := Bool.eq_false_iff.mpr hx
      rw [List.find?_cons_of_neg _ hx] at hc
      simp only [updateFirst, hx', Bool.false_eq_true, if_false]
      rw [List.find?_cons_of_neg _ hx]
      exact ih hc

/-- C3: idempotent live upsert.  Starting from a session holding no row for
the natural key `(currency_pair_id, exchange_id, time_period_id,
d.timestamp)`, invoking `_save_or_update_candle` twice with the same candle
data leaves exactly one stored row for that key: the first call inserts a row
with `close_time = open_time`, the second finds it and overwrites OHLCV,
`quote_volume` and `trades_count`, stamping `updated_at` with the second
call's current time — inserting nothing new. -/
theorem idempotent_upsert (currency_pair_id exchange_id time_period_id now₁ now₂ : Int)
    (d : CandleData) (db : Session)
    (habsent : ∀ c ∈ db.current,
      candleMatches currency_pair_id exchange_id time_period_id d.timestamp c = false) :
    (save_or_update_candle now₂ currency_pair_id exchange_id time_period_id d
        (save_or_update_candle now₁ currency_pair_id exchange_id time_period_id d db)).current.countP
        (candleMatches currency_pair_id exchange_id time_period_id d.timestamp) = 1 ∧
    (save_or_update_candle now₂ currency_pair_id exchange_id time_period_id d
        (save_or_update_candle now₁ currency_pair_id exchange_id time_period_id d db)).current.length =
      (save_or_update_candle now₁ currency_pair_id exchange_id time_period_id d db).current.length ∧
    (∃ c, (save_or_update_candle now₁ currency_pair_id exchange_id time_period_id d
        db).current.find?
        (candleMatches currency_pair_id exchange_id time_period_id d.timestamp) = some c ∧
      c.close_time = c.open_time ∧ c.open_time = d.timestamp) ∧
    (∃ c, (save_or_update_candle now₂ currency_pair_id exchange_id time_period_id d
        (save_or_update_candle now₁ currency_pair_id exchange_id time_period_id d db)).current.find?
        (candleMatches currency_pair_id exchange_id time_period_id d.timestamp) = some c ∧
      c.open_price = d.open_ ∧ c.high_price = d.high ∧ c.low_price = d.low ∧
      c.close_price = d.close ∧ c.volume = d.volume ∧
      c.quote_volume = d.quote_volume.getD 0 ∧ c.trades_count = d.trades_count.getD 0 ∧
      c.updated_at = some now₂) ∧
    (save_or_update_candle now₂ currency_pair_id exchange_id time_period_id d
        (save_or_update_candle now₁ currency_pair_id exchange_id time_period_id d db)).committed =
      (save_or_update_candle now₂ currency_pair_id exchange_id time_period_id d
        (save_or_update_candle now₁ currency_pair_id exchange_id time_period_id d db)).current := by
  set P := candleMatches currency_pair_id exchange_id time_period_id d.timestamp with hP
  set N := new_candle_row currency_pair_id exchange_id time_period_id d with hN
  have hPN : P N = true := candleMatches_new_row _ _ _ _
  have hfind1 : db.current.find? P = none :=
    List.find?_eq_none.mpr (fun x hx => by simp [habsent x hx])
  have hdb1 : save_or_update_candle now₁ currency_pair_id exchange_id time_period_id d db =
      ⟨db.current ++ [N], db.current ++ [N]⟩ := by
    simp only [save_or_update_candle, ← hP, hfind1, Session.commit, ← hN]
  have hfind2 : (db.current ++ [N]).find? P = some N := by
    rw [List.find?_append, hfind1, Option.none_or, List.find?_cons_of_pos _ hPN]
  have hupdate : updateFirst P (updated_candle_row now₂ d) (db.current ++ [N]) =
      db.current ++ [updated_candle_row now₂ d N] := by
    rw [updateFirst_append_of_none P _ db.current [N] habsent]
    simp [updateFirst, hPN]
  have hdb2 : save_or_update_candle now₂ currency_pair_id exchange_id time_period_id d
      (save_or_update_candle now₁ currency_pair_id exchange_id time_period_id d db) =
      ⟨db.current ++ [updated_candle_row now₂ d N],
        db.current ++ [updated_candle_row now₂ d N]⟩ := by
    rw [hdb1]
    simp only [save_or_update_candle, ← hP, hfind2, Session.commit, hupdate]
  have hPupd : P (updated_candle_row now₂ d N) = true :=
    candleMatches_updated_row _ _ _ _ _ _ _ hPN
  refine ⟨?_, ?_, ?_, ?_, ?_⟩
  · rw [hdb2]
    simp only [List.countP_append]
    rw [List.countP_eq_zero.mpr (fun x hx => by simp [habsent x hx])]
    simp [List.countP_cons, hPupd]
  · rw [hdb2, hdb1]
    simp
  · refine ⟨N, ?_, rfl, rfl⟩
    rw [hdb1]
    exact hfind2
  · refine ⟨updated_candle_row now₂ d N, ?_, rfl, rfl, rfl, rfl, rfl, rfl, rfl, rfl⟩
    rw [hdb2]
    rw [List.find?_append, hfind1, Option.none_or, List.find?_cons_of_pos _ hPupd]
  · rw [hdb2]

/-- Witness for `idempotent_upsert` on an initially empty session. -/
theorem idempotent_upsert_witness :
    (save_or_update_candle 20 1 2 3 ⟨100, 10, 11, 9, 10, 50, none, none⟩
        (save_or_update_candle 10 1 2 3 ⟨100, 10, 11, 9, 10, 50, none, none⟩
          ⟨[], []⟩)).current.countP (candleMatches 1 2 3 (100 : Int)) = 1 ∧
    (save_or_update_candle 20 1 2 3 ⟨100, 10, 11, 9, 10, 50, none, none⟩
        (save_or_update_candle 10 1 2 3 ⟨100, 10, 11, 9, 10, 50, none, none⟩
          ⟨[], []⟩)).current.length =
      (save_or_update_candle 10 1 2 3 ⟨100, 10, 11, 9, 10, 50, none, none⟩
        ⟨[], []⟩).current.length ∧
    (∃ c, (save_or_update_candle 10 1 2 3 ⟨100, 10, 11, 9, 10, 50, none, none⟩
        ⟨[], []⟩).current.find? (candleMatches 1 2 3 (100 : Int)) = some c ∧
      c.close_time = c.open_time ∧ c.open_time = (100 : Int)) ∧
    (∃ c, (save_or_update_candle 20 1 2 3 ⟨100, 10, 11, 9, 10, 50, none, none⟩
        (save_or_update_candle 10 1 2 3 ⟨100, 10, 11, 9, 10, 50, none, none⟩
          ⟨[], []⟩)).current.find? (candleMatches 1 2 3 (100 : Int)) = some c ∧
      c.open_price = (10 : Int) ∧ c.high_price = (11 : Int) ∧ c.low_price = (9 : Int) ∧
      c.close_price = (10 : Int) ∧ c.volume = (50 : Int) ∧
      c.quote_volume = (0 : Int) ∧ c.trades_count = (0 : Int) ∧
      c.updated_at = some (20 : Int)) ∧
    (save_or_update_candle 20 1 2 3 ⟨100, 10, 11, 9, 10, 50, none, none⟩
        (save_or_update_candle 10 1 2 3 ⟨100, 10, 11, 9, 10, 50, none, none⟩
          ⟨[], []⟩)).committed =
      (save_or_update_candle 20 1 2 3 ⟨100, 10, 11, 9, 10, 50, none, none⟩
        (save_or_update_candle 10 1 2 3 ⟨100, 10, 11, 9, 10, 50, none, none⟩
          ⟨[], []⟩)).current :=
  idempotent_upsert 1 2 3 10 20 ⟨100, 10, 11, 9, 10, 50, none, none⟩ ⟨[], []⟩
    (by intro c hc; exact absurd hc (List.not_mem_nil c))

/-- C5 counterexample: a live-update invocation that upserts one candle and
then hits an uncaught top-level error.  The rollback of line 108 does not undo
the candle: `_save_or_update_candle` already committed it (line 191), so a
partial subset of the invocation's writes stays persisted — the writes were
not batched into one transaction rolled back wholesale. -/
theorem live_single_transaction_counterexample :
    (collect_current_candles
        [LiveEvent.save 1 2 3 5 ⟨100, 10, 11, 9, 10, 50, none, none⟩, LiveEvent.topError]
        ⟨[], []⟩).committed ≠ [] := by
  decide

/-- C5 (amended): live-update transactional discipline.  Every
`_save_or_update_candle` call commits immediately (its result has
`committed = current`); a run of saves followed by an uncaught top-level error
ends in a rollback to the state those per-candle commits produced — so the
completed saves persist and only work after the last commit is discarded —
and an error-free run ends in the final commit of line 103. -/
theorem live_update_commit_discipline
    (writes : List (Int × Int × Int × Int × CandleData)) (rest : List LiveEvent)
    (db : Session) :
    (∀ (w : Int × Int × Int × Int × CandleData) (s : Session),
      (save_or_update_candle w.2.2.2.1 w.1 w.2.1 w.2.2.1 w.2.2.2.2 s).committed =
        (save_or_update_candle w.2.2.2.1 w.1 w.2.1 w.2.2.1 w.2.2.2.2 s).current) ∧
    collect_current_candles (saveEvents writes ++ LiveEvent.topError :: rest) db =
      Session.rollback (applySaves writes db) ∧
    collect_current_candles (saveEvents writes) db = Session.commit (applySaves writes db) := by
  refine ⟨?_, ?_, ?_⟩
  · intro w s
    simp only [save_or_update_candle]
    split <;> rfl
  · induction writes generalizing db with
    | nil => rfl
    | cons w ws ih =>
      simp only [saveEvents, List.map_cons, List.cons_append, collect_current_candles,
        applySaves, List.foldl_cons]
      exact ih _
  · induction writes generalizing db with
    | nil => rfl
    | cons w ws ih =>
      simp only [saveEvents, List.map_cons, collect_current_candles, applySaves,
        List.foldl_cons]
      exact ih _

/-- C6: per-exchange failure isolation in live update.  An exchange whose
client construction raises is skipped without touching the session — the rest
of the invocation runs exactly as if that exchange were absent — and in the
concrete two-exchange scenario (A's construction raises, B upserts one
candle) the cycle still stores B's candle and ends in a clean commit. -/
theorem exchange_failure_isolation :
    (∀ (events : List LiveEvent) (db : Session),
      collect_current_candles (LiveEvent.initFail :: events) db =
        collect_current_candles events db) ∧
    (collect_current_candles
        [LiveEvent.initFail, LiveEvent.save 1 2 3 5 ⟨100, 10, 11, 9, 10, 50, none, none⟩]
        ⟨[], []⟩).committed =
      [new_candle_row 1 2 3 ⟨100, 10, 11, 9, 10, 50, none, none⟩] ∧
    (collect_current_candles
        [LiveEvent.initFail, LiveEvent.save 1 2 3 5 ⟨100, 10, 11, 9, 10, 50, none, none⟩]
        ⟨[], []⟩).committed =
      (collect_current_candles
        [LiveEvent.initFail, LiveEvent.save 1 2 3 5 ⟨100, 10, 11, 9, 10, 50, none, none⟩]
        ⟨[], []⟩).current := by
  refine ⟨fun events db => rfl, ?_, ?_⟩ <;> decide

/-- The backfill loop finishes within its budget whenever the budget covers
the width of the remaining range: every iteration moves the cursor forward by
at least one. -/
theorem collect_candles_for_range_isSome (fetch : Int → List CandleData)
    (currency_pair_id exchange_id time_period_id minutes end_time : Int)
    (hm : 0 < minutes) :
    ∀ (fuel : Nat) (current_time : Int) (db : Session),
      (end_time - current_time).toNat ≤ fuel →
      (collect_candles_for_range fetch currency_pair_id exchange_id time_period_id minutes
        end_time fuel current_time db).isSome := by
  intro fuel
  induction fuel with
  | zero =>
    intro current_time db hf
    simp only [collect_candles_for_range]
    rw [if_neg (by omega)]
    simp
  | succ fuel ih =>
    intro current_time db hf
    simp only [collect_candles_for_range]
    split
    case isTrue hcur =>
      cases hfc : fetch current_time with
      | nil => simp
      | cons d ds =>
        refine ih _ _ ?_
        have hnext : current_time <
            backfill_next_cursor minutes current_time
              ((d :: ds).getLast (List.cons_ne_nil d ds)).timestamp := by
          unfold backfill_next_cursor
          split <;> omega
        omega
    case isFalse => simp

/-- C2: backfill termination with guaranteed cursor progress.  With a positive
timeframe duration the cursor strictly increases every iteration — to
`last + minutes` when the page's last timestamp is past the cursor, and by
`minutes * 100` otherwise — so against any data source (including one whose
pages never advance past `since`) the range loop exits within
`end_time - start_time` iterations. -/
theorem backfill_termination (fetch : Int → List CandleData)
    (currency_pair_id exchange_id time_period_id minutes start_time end_time
      current_time last : Int) (db : Session) (hm : 0 < minutes) :
    current_time < backfill_next_cursor minutes current_time last ∧
    (current_time < last →
      backfill_next_cursor minutes current_time last = last + minutes) ∧
    (last ≤ current_time →
      backfill_next_cursor minutes current_time last = current_time + minutes * 100) ∧
    (collect_candles_for_range fetch currency_pair_id exchange_id time_period_id minutes
      end_time ((end_time - start_time).toNat) start_time db).isSome := by
  refine ⟨?_, ?_, ?_, ?_⟩
  · unfold backfill_next_cursor
    split <;> omega
  · intro h
    unfold backfill_next_cursor
    rw [if_neg (by omega)]
  · intro h
    unfold backfill_next_cursor
    rw [if_pos h]
  · exact collect_candles_for_range_isSome fetch currency_pair_id exchange_id time_period_id
      minutes end_time hm ((end_time - start_time).toNat) start_time db le_rfl

/-- Witness for `backfill_termination` against the spec's adversarial stub:
every page's last (and only) candle opens exactly at the requested `since`,
so the cursor never advances from the data and the defensive
`minutes * 100` rule must carry the loop to completion. -/
theorem backfill_termination_witness :
    (0 : Int) < 1 ∧
    (0 : Int) < backfill_next_cursor 1 0 7 ∧
    backfill_next_cursor 1 0 7 = 7 + 1 ∧
    backfill_next_cursor 1 7 7 = 7 + 1 * 100 ∧
    (collect_candles_for_range (fun since => [⟨since, 10, 11, 9, 10, 50, none, none⟩])
      1 2 3 1 150 (((150 : Int) - 0).toNat) 0 ⟨[], []⟩).isSome :=
  ⟨by decide,
    (backfill_termination (fun since => [⟨since, 10, 11, 9, 10, 50, none, none⟩])
      1 2 3 1 0 150 0 7 ⟨[], []⟩ (by decide)).1,
    (backfill_termination (fun since => [⟨since, 10, 11, 9, 10, 50, none, none⟩])
      1 2 3 1 0 150 0 7 ⟨[], []⟩ (by decide)).2.1 (by decide),
    (backfill_termination (fun since => [⟨since, 10, 11, 9, 10, 50, none, none⟩])
      1 2 3 1 0 150 7 7 ⟨[], []⟩ (by decide)).2.2.1 (by decide),
    (backfill_termination (fun since => [⟨since, 10, 11, 9, 10, 50, none, none⟩])
      1 2 3 1 0 150 0 7 ⟨[], []⟩ (by decide)).2.2.2⟩

/-- C9: backfill never mutates existing rows.  `_save_historical_candles`
only ever appends to the stored rows — every pre-existing row keeps its
position and every field — and when each candle of the page already has a row
for its natural key the call changes nothing at all, so re-running backfill
over an already-covered range cannot overwrite stored values. -/
theorem backfill_insert_or_skip (currency_pair_id exchange_id time_period_id : Int)
    (page : List CandleData) (db : Session) :
    (∃ tail, (save_historical_candles currency_pair_id exchange_id time_period_id page
        db).current = db.current ++ tail) ∧
    ((∀ d ∈ page, ∃ c ∈ db.current,
        candleMatches currency_pair_id exchange_id time_period_id d.timestamp c = true) →
      save_historical_candles currency_pair_id exchange_id time_period_id page db = db) := by
  constructor
  · induction page generalizing db with
    | nil => exact ⟨[], by simp [save_historical_candles]⟩
    | cons d ds ih =>
      simp only [save_historical_candles, List.foldl_cons]
      cases hf : db.current.find?
          (candleMatches currency_pair_id exchange_id time_period_id d.timestamp) with
      | some c =>
        obtain ⟨tail, htail⟩ := ih db
        refine ⟨tail, ?_⟩
        simpa only [save_historical_candles, hf] using htail
      | none =>
        obtain ⟨tail, htail⟩ := ih
          ⟨db.current ++ [new_candle_row currency_pair_id exchange_id time_period_id d],
            db.current ++ [new_candle_row currency_pair_id exchange_id time_period_id d]⟩
        refine ⟨new_candle_row currency_pair_id exchange_id time_period_id d :: tail, ?_⟩
        simp only [save_historical_candles] at htail
        simpa [Session.commit, List.append_assoc] using htail
  · induction page with
    | nil => intro _; rfl
    | cons d ds ih =>
      intro h
      have hd := h d (List.mem_cons_self d ds)
      have hsome : (db.current.find?
          (candleMatches currency_pair_id exchange_id time_period_id d.timestamp)).isSome :=
        List.find?_isSome.mpr hd
      obtain ⟨c, hc⟩ := Option.isSome_iff_exists.mp hsome
      have step : save_historical_candles currency_pair_id exchange_id time_period_id
          (d :: ds) db = save_historical_candles currency_pair_id exchange_id time_period_id
          ds db := by
        simp only [save_historical_candles, List.foldl_cons, hc]
      rw [step]
      exact ih (fun x hx => h x (List.mem_cons_of_mem d hx))

/-- Witness for `backfill_insert_or_skip`: one page candle whose key already
has a stored row with different OHLCV values; the call is a no-op. -/
theorem backfill_insert_or_skip_witness :
    (∃ tail, (save_historical_candles 1 2 3 [⟨100, 10, 11, 9, 10, 50, none, none⟩]
        (⟨[⟨1, 2, 3, 100, 100, 70, 71, 69, 70, 500, 0, 0, none⟩],
          [⟨1, 2, 3, 100, 100, 70, 71, 69, 70, 500, 0, 0, none⟩]⟩ : Session)).current =
      (⟨[⟨1, 2, 3, 100, 100, 70, 71, 69, 70, 500, 0, 0, none⟩],
        [⟨1, 2, 3, 100, 100, 70, 71, 69, 70, 500, 0, 0, none⟩]⟩ : Session).current ++ tail) ∧
    save_historical_candles 1 2 3 [⟨100, 10, 11, 9, 10, 50, none, none⟩]
        (⟨[⟨1, 2, 3, 100, 100, 70, 71, 69, 70, 500, 0, 0, none⟩],
          [⟨1, 2, 3, 100, 100, 70, 71, 69, 70, 500, 0, 0, none⟩]⟩ : Session) =
      (⟨[⟨1, 2, 3, 100, 100, 70, 71, 69, 70, 500, 0, 0, none⟩],
        [⟨1, 2, 3, 100, 100, 70, 71, 69, 70, 500, 0, 0, none⟩]⟩ : Session) := by
  obtain ⟨h1, h2⟩ := backfill_insert_or_skip 1 2 3 [⟨100, 10, 11, 9, 10, 50, none, none⟩]
    (⟨[⟨1, 2, 3, 100, 100, 70, 71, 69, 70, 500, 0, 0, none⟩],
      [⟨1, 2, 3, 100, 100, 70, 71, 69, 70, 500, 0, 0, none⟩]⟩ : Session)
  exact ⟨h1, h2 (by decide)⟩

/-- C10: live fetch always zeroes `quote_volume` and `trades_count`.  Any
candle dict `fetch_current_candle` produces carries no `quote_volume` or
`trades_count` key, so the live upsert stores `0` for both — also when it
updates an existing row, overwriting whatever values that row held. -/
theorem live_fetch_zeroes_quote_volume (ohlcv : List RawOHLCV) (d : CandleData)
    (hd : fetch_current_candle ohlcv = some d)
    (currency_pair_id exchange_id time_period_id now : Int) (db : Session) :
    d.quote_volume = none ∧ d.trades_count = none ∧
    ∃ c, (save_or_update_candle now currency_pair_id exchange_id time_period_id d
        db).current.find?
        (candleMatches currency_pair_id exchange_id time_period_id d.timestamp) = some c ∧
      c.quote_volume = 0 ∧ c.trades_count = 0 := by
  have hqv : d.quote_volume = none ∧ d.trades_count = none := by
    unfold fetch_current_candle at hd
    cases hlast : ohlcv.getLast? with
    | none => rw [hlast] at hd; exact absurd hd (by simp)
    | some r =>
      rw [hlast] at hd
      obtain rfl := Option.some.inj hd
      exact ⟨rfl, rfl⟩
  refine ⟨hqv.1, hqv.2, ?_⟩
  cases hf : db.current.find?
      (candleMatches currency_pair_id exchange_id time_period_id d.timestamp) with
  | none =>
    refine ⟨new_candle_row currency_pair_id exchange_id time_period_id d, ?_, ?_, ?_⟩
    · simp only [save_or_update_candle, hf, Session.commit]
      rw [List.find?_append, hf, Option.none_or,
        List.find?_cons_of_pos _ (candleMatches_new_row _ _ _ _)]
    · simp [new_candle_row, hqv.1]
    · simp [new_candle_row, hqv.2]
  | some c₀ =>
    have hPc₀ := List.find?_some hf
    refine ⟨updated_candle_row now d c₀, ?_, ?_, ?_⟩
    · simp only [save_or_update_candle, hf, Session.commit]
      exact find?_updateFirst _ _ _ _ hf
        (candleMatches_updated_row _ _ _ _ _ _ _ hPc₀)
    · simp [updated_candle_row, hqv.1]
    · simp [updated_candle_row, hqv.2]

/-- Witness for `live_fetch_zeroes_quote_volume`: the fetched candle updates
an existing row holding `quote_volume = 7`, `trades_count = 9`; both end up
`0`. -/
theorem live_fetch_zeroes_quote_volume_witness :
    (⟨100, 10, 11, 9, 10, 50, none, none⟩ : CandleData).quote_volume = none ∧
    (⟨100, 10, 11, 9, 10, 50, none, none⟩ : CandleData).trades_count = none ∧
    ∃ c, (save_or_update_candle 42 1 2 3 (⟨100, 10, 11, 9, 10, 50, none, none⟩ : CandleData)
        (⟨[⟨1, 2, 3, 100, 100, 70, 71, 69, 70, 500, 7, 9, none⟩],
          [⟨1, 2, 3, 100, 100, 70, 71, 69, 70, 500, 7, 9, none⟩]⟩ : Session)).current.find?
        (candleMatches 1 2 3 (⟨100, 10, 11, 9, 10, 50, none, none⟩ : CandleData).timestamp) =
        some c ∧
      c.quote_volume = 0 ∧ c.trades_count = 0 :=
  live_fetch_zeroes_quote_volume [⟨100000, 10, 11, 9, 10, 50⟩]
    ⟨100, 10, 11, 9, 10, 50, none, none⟩ rfl 1 2 3 42
    (⟨[⟨1, 2, 3, 100, 100, 70, 71, 69, 70, 500, 7, 9, none⟩],
      [⟨1, 2, 3, 100, 100, 70, 71, 69, 70, 500, 7, 9, none⟩]⟩ : Session)

end RevengeCalc
